import Mathlib

/-!
Verification of the session-memory store of the ai-customer-service-bot
repository (src/bot/session_memory.py), as specified in spec.md.

The Python module is embedded shallowly:
* Python dicts become association lists with unique keys (`dictGet`,
  `dictSet`, `dictDel` mirror `d[k]`, `d[k] = v`, `del d[k]`; `dictSet`
  keeps the position of an existing key and appends a fresh key at the
  end, exactly as CPython dicts do).
* `datetime.now()` becomes an explicit `now : Nat` argument threaded into
  every operation that reads the clock; `timedelta` comparison becomes a
  `Nat` comparison in the same time unit (minutes).
* The Python slice `l[-n:]` used for eviction is `pySliceLast`: for
  `n = 0` it is the whole list (`l[-0:]` is `l[0:]`), otherwise the last
  `min n (length l)` elements.
* The truthiness test `if last_n_messages:` on an `Optional[int]` is
  falsy for both `None` and `0`; `get_conversation_history` models both.
* `to_dict` serialisation is dropped: history operations return the
  message records themselves, which carry the same fields.
* The one pass of the body of the background loop
  `_cleanup_expired_sessions` is `cleanup_pass` (the `asyncio` sleeping
  and exception backoff are scheduling, not state transformation).
-/

namespace SessionMem

/-- A single conversation message (class `ConversationMessage`);
timestamps are modelled as natural numbers. -/
structure ConversationMessage where
  content : String
  sender : String
  timestamp : Nat
deriving DecidableEq, Repr

/-- Python dict lookup `d.get(k)` on an association list: first matching key. -/
def dictGet {α : Type} (k : String) : List (String × α) → Option α
  | [] => none
  | (k', v) :: rest => if k' = k then some v else dictGet k rest

/-- Python dict assignment `d[k] = v`: update in place if `k` is present,
append at the end otherwise (CPython preserves insertion order). -/
def dictSet {α : Type} (k : String) (v : α) : List (String × α) → List (String × α)
  | [] => [(k, v)]
  | (k', v') :: rest => if k' = k then (k, v) :: rest else (k', v') :: dictSet k v rest

/-- Python `del d[k]`: remove the (unique) entry for `k`; on an
association list this removes the first occurrence. -/
def dictDel {α : Type} (k : String) : List (String × α) → List (String × α)
  | [] => []
  | (k', v') :: rest => if k' = k then rest else (k', v') :: dictDel k rest

/-- The key list of a dict, in insertion order (`list(d.keys())`). -/
def keys {α : Type} (d : List (String × α)) : List String :=
  d.map Prod.fst

/-- Delete every key of `ks` from `d` (the deletion loop of the sweep). -/
def delAll {α : Type} (ks : List String) (d : List (String × α)) : List (String × α) :=
  ks.foldl (fun acc k => dictDel k acc) d

/-- The whole mutable state of class `SessionMemory`:
`sessions`, `session_last_activity`, and the two configuration fields. -/
structure SessionMemory where
  sessions : List (String × List ConversationMessage)
  session_last_activity : List (String × Nat)
  max_messages : Nat
  session_timeout : Nat
deriving DecidableEq, Repr

/-- Constructor `SessionMemory.__init__` (without the spawned asyncio task):
both dicts start empty. -/
def initMemory (max_messages_per_session : Nat) (session_timeout_minutes : Nat) :
    SessionMemory :=
  { sessions := []
    session_last_activity := []
    max_messages := max_messages_per_session
    session_timeout := session_timeout_minutes }

/-- Method `get_session_id`: the f-string `f"session_{user_id}"`. -/
def get_session_id (user_id : String) : String :=
  "session_" ++ user_id

/-- Python slice `l[-n:]`. For `n = 0` this is all of `l`
(`l[-0:]` is `l[0:]`); for `n ≥ 1` it is the last `min n (length l)`
elements. -/
def pySliceLast {α : Type} (n : Nat) (l : List α) : List α :=
  if n = 0 then l else l.drop (l.length - n)

/-- Method `add_message`: create the session list if absent, append the new
message, stamp `session_last_activity`, and if the list now exceeds
`max_messages` keep only `l[-max_messages:]`. -/
def add_message (s : SessionMemory) (user_id content sender : String) (now : Nat) :
    SessionMemory :=
  let session_id := get_session_id user_id
  let old := (dictGet session_id s.sessions).getD []
  let appended := old ++ [⟨content, sender, now⟩]
  let new_msgs :=
    if appended.length > s.max_messages then pySliceLast s.max_messages appended
    else appended
  { s with
      sessions := dictSet session_id new_msgs s.sessions
      session_last_activity := dictSet session_id now s.session_last_activity }

/-- Method `get_conversation_history`: `[]` for an unknown session; with
`last_n_messages` absent or `0` (both falsy under `if last_n_messages:`)
the whole retained list, otherwise the slice `messages[-n:]`. -/
def get_conversation_history (s : SessionMemory) (user_id : String)
    (last_n_messages : Option Nat) : List ConversationMessage :=
  match dictGet (get_session_id user_id) s.sessions with
  | none => []
  | some messages =>
      match last_n_messages with
      | none => messages
      | some n => if n = 0 then messages else messages.drop (messages.length - n)

/-- Method `get_last_user_message`: scan the session in reverse for the first
message whose `sender` equals `"user"`. -/
def get_last_user_message (s : SessionMemory) (user_id : String) : Option String :=
  match dictGet (get_session_id user_id) s.sessions with
  | none => none
  | some msgs =>
      match msgs.reverse.find? (fun m => m.sender == "user") with
      | none => none
      | some m => some m.content

/-- Method `get_last_bot_message`: scan the session in reverse for the first
message whose `sender` equals `"bot"`. -/
def get_last_bot_message (s : SessionMemory) (user_id : String) : Option String :=
  match dictGet (get_session_id user_id) s.sessions with
  | none => none
  | some msgs =>
      match msgs.reverse.find? (fun m => m.sender == "bot") with
      | none => none
      | some m => some m.content

/-- One line of `get_conversation_context`:
`f"{sender}: {content}"` where sender is `"Customer"` if the stored
sender is `"user"` and `"Assistant"` otherwise. -/
def format_line (m : ConversationMessage) : String :=
  (if m.sender == "user" then "Customer" else "Assistant") ++ ": " ++ m.content

/-- Method `get_conversation_context`: the last `context_length` messages joined
with newlines, or the fixed sentinel when the history is empty. -/
def get_conversation_context (s : SessionMemory) (user_id : String)
    (context_length : Nat) : String :=
  let history := get_conversation_history s user_id (some context_length)
  if history.isEmpty then "This is the start of the conversation."
  else String.intercalate "\n" (history.map format_line)

/-- Method `clear_session`: returns the boolean result together with the new
state. Deletes both dict entries when the session exists. -/
def clear_session (s : SessionMemory) (user_id : String) : Bool × SessionMemory :=
  let session_id := get_session_id user_id
  if (dictGet session_id s.sessions).isSome then
    (true,
      { s with
          sessions := dictDel session_id s.sessions
          session_last_activity := dictDel session_id s.session_last_activity })
  else (false, s)

/-- The record returned by `get_session_stats`; the Python float average
is modelled as an exact rational. -/
structure SessionStats where
  total_sessions : Nat
  total_messages : Nat
  active_sessions : List String
  avg_messages_per_session : ℚ
deriving DecidableEq, Repr

/-- Method `get_session_stats`: counts over the live `sessions` dict. -/
def get_session_stats (s : SessionMemory) : SessionStats :=
  let total_sessions := s.sessions.length
  let total_messages := (s.sessions.map (fun p => p.2.length)).sum
  { total_sessions := total_sessions
    total_messages := total_messages
    active_sessions := keys s.sessions
    avg_messages_per_session :=
      if total_sessions > 0 then (total_messages : ℚ) / (total_sessions : ℚ) else 0 }

/-- One pass of the body of `_cleanup_expired_sessions`, run at time
`now`: collect every session id whose `now - last_activity` strictly
exceeds `session_timeout`, then delete each from both dicts. -/
def cleanup_pass (s : SessionMemory) (now : Nat) : SessionMemory :=
  let expired :=
    keys (s.session_last_activity.filter (fun p => decide (s.session_timeout < now - p.2)))
  { s with
      sessions := delAll expired s.sessions
      session_last_activity := delAll expired s.session_last_activity }

/-- Repeated `add_message` calls for one user, in order, each with its content,
sender and clock reading. -/
def add_messages (s : SessionMemory) (user_id : String)
    (inputs : List (String × String × Nat)) : SessionMemory :=
  inputs.foldl (fun st p => add_message st user_id p.1 p.2.1 p.2.2) s

/-- The messages a list of `add_messages` inputs appends, in order. -/
def msgsOf (inputs : List (String × String × Nat)) : List ConversationMessage :=
  inputs.map (fun p => ⟨p.1, p.2.1, p.2.2⟩)

/-- One mutating operation of the public surface of the store (the sweep pass
included). -/
inductive Step : SessionMemory → SessionMemory → Prop
  | add (s : SessionMemory) (user_id content sender : String) (now : Nat) :
      Step s (add_message s user_id content sender now)
  | clear (s : SessionMemory) (user_id : String) :
      Step s (clear_session s user_id).2
  | sweep (s : SessionMemory) (now : Nat) :
      Step s (cleanup_pass s now)

/-- States reachable from a freshly constructed store by any sequence of
operations. -/
inductive Reachable : SessionMemory → Prop
  | start (m t : Nat) : Reachable (initMemory m t)
  | step {s s' : SessionMemory} : Reachable s → Step s s' → Reachable s'


/-! ### Association-list (dict) lemmas -/

theorem keys_cons {α : Type} (a : String) (b : α) (d : List (String × α)) :
    keys ((a, b) :: d) = a :: keys d := rfl

theorem dictGet_eq_none_iff {α : Type} (k : String) (d : List (String × α)) :
    dictGet k d = none ↔ k ∉ keys d := by
  induction d with
  | nil => simp [dictGet, keys]
  | cons p rest ih =>
      obtain ⟨a, b⟩ := p
      rw [keys_cons]
      by_cases h : a = k <;> simp_all [dictGet, eq_comm]

theorem dictGet_isSome_iff {α : Type} (k : String) (d : List (String × α)) :
    (dictGet k d).isSome = true ↔ k ∈ keys d := by
  rw [Option.isSome_iff_ne_none, ne_eq, dictGet_eq_none_iff, not_not]

theorem dictGet_dictSet {α : Type} (k k' : String) (v : α) (d : List (String × α)) :
    dictGet k (dictSet k' v d) = if k' = k then some v else dictGet k d := by
  induction d with
  | nil => by_cases h : k' = k <;> simp [dictSet, dictGet, h]
  | cons p rest ih =>
      obtain ⟨a, b⟩ := p
      by_cases h1 : a = k' <;> by_cases h2 : k' = k <;> by_cases h3 : a = k <;>
        simp_all [dictSet, dictGet]

theorem mem_keys_dictSet {α : Type} (a k : String) (v : α) (d : List (String × α)) :
    a ∈ keys (dictSet k v d) ↔ a = k ∨ a ∈ keys d := by
  induction d with
  | nil => simp [dictSet, keys]
  | cons p rest ih =>
      obtain ⟨c, b⟩ := p
      by_cases hc : c = k
      · subst hc
        simp [dictSet, keys_cons]
      · simp only [dictSet, if_neg hc, keys_cons, List.mem_cons, ih]
        tauto

theorem nodup_keys_dictSet {α : Type} (k : String) (v : α) (d : List (String × α))
    (hnd : (keys d).Nodup) : (keys (dictSet k v d)).Nodup := by
  induction d with
  | nil => simp [dictSet, keys]
  | cons p rest ih =>
      obtain ⟨c, b⟩ := p
      rw [keys_cons, List.nodup_cons] at hnd
      by_cases hc : c = k
      · subst hc
        rw [dictSet, if_pos rfl, keys_cons, List.nodup_cons]
        exact hnd
      · rw [dictSet, if_neg hc, keys_cons, List.nodup_cons]
        refine ⟨?_, ih hnd.2⟩
        intro hmem
        rcases (mem_keys_dictSet c k v rest).1 hmem with h | h
        · exact hc h
        · exact hnd.1 h

theorem dictGet_dictDel_ne {α : Type} (k k' : String) (d : List (String × α))
    (h : k' ≠ k) : dictGet k (dictDel k' d) = dictGet k d := by
  induction d with
  | nil => simp [dictDel]
  | cons p rest ih =>
      obtain ⟨a, b⟩ := p
      by_cases ha : a = k' <;> by_cases hk : a = k <;>
        simp_all [dictDel, dictGet]

theorem keys_dictDel_sublist {α : Type} (k : String) (d : List (String × α)) :
    List.Sublist (keys (dictDel k d)) (keys d) := by
  induction d with
  | nil => simp [dictDel]
  | cons p rest ih =>
      obtain ⟨a, b⟩ := p
      by_cases ha : a = k
      · rw [dictDel, if_pos ha, keys_cons]
        exact List.sublist_cons_self a (keys rest)
      · rw [dictDel, if_neg ha, keys_cons, keys_cons]
        exact ih.cons₂ a

theorem nodup_keys_dictDel {α : Type} (k : String) (d : List (String × α))
    (hnd : (keys d).Nodup) : (keys (dictDel k d)).Nodup :=
  (keys_dictDel_sublist k d).nodup hnd

theorem dictGet_dictDel_self {α : Type} (k : String) (d : List (String × α))
    (hnd : (keys d).Nodup) : dictGet k (dictDel k d) = none := by
  induction d with
  | nil => simp [dictDel, dictGet]
  | cons p rest ih =>
      obtain ⟨a, b⟩ := p
      rw [keys_cons, List.nodup_cons] at hnd
      by_cases ha : a = k
      · subst ha
        rw [dictDel, if_pos rfl, dictGet_eq_none_iff]
        exact hnd.1
      · rw [dictDel, if_neg ha, dictGet, if_neg ha]
        exact ih hnd.2

theorem mem_keys_dictDel {α : Type} (a k : String) (d : List (String × α))
    (hnd : (keys d).Nodup) : a ∈ keys (dictDel k d) ↔ a ∈ keys d ∧ a ≠ k := by
  constructor
  · intro h
    refine ⟨(keys_dictDel_sublist k d).mem h, ?_⟩
    rintro rfl
    have hnone := dictGet_dictDel_self a d hnd
    rw [dictGet_eq_none_iff] at hnone
    exact hnone h
  · rintro ⟨hmem, hne⟩
    have h1 : dictGet a (dictDel k d) = dictGet a d := dictGet_dictDel_ne a k d (Ne.symm hne)
    have h2 : ¬ dictGet a (dictDel k d) = none := by
      rw [h1, dictGet_eq_none_iff, not_not]
      exact hmem
    rw [dictGet_eq_none_iff, not_not] at h2
    exact h2

theorem dictGet_delAll {α : Type} (k : String) (ks : List String)
    (d : List (String × α)) (hnd : (keys d).Nodup) :
    dictGet k (delAll ks d) = if k ∈ ks then none else dictGet k d := by
  induction ks generalizing d with
  | nil => simp [delAll]
  | cons a rest ih =>
      have hstep : delAll (a :: rest) d = delAll rest (dictDel a d) := rfl
      rw [hstep, ih (dictDel a d) (nodup_keys_dictDel a d hnd)]
      by_cases hmem : k ∈ rest
      · simp [hmem]
      · by_cases hak : a = k
        · subst hak
          simp [hmem, dictGet_dictDel_self a d hnd]
        · have hka : ¬ k = a := fun hq => hak hq.symm
          simp [hmem, hka, dictGet_dictDel_ne k a d hak]

theorem nodup_keys_delAll {α : Type} (ks : List String) (d : List (String × α))
    (hnd : (keys d).Nodup) : (keys (delAll ks d)).Nodup := by
  induction ks generalizing d with
  | nil => exact hnd
  | cons a rest ih => exact ih (dictDel a d) (nodup_keys_dictDel a d hnd)

theorem mem_keys_delAll {α : Type} (a : String) (ks : List String)
    (d : List (String × α)) (hnd : (keys d).Nodup) :
    a ∈ keys (delAll ks d) ↔ a ∈ keys d ∧ a ∉ ks := by
  have h := dictGet_delAll a ks d hnd
  by_cases hmem : a ∈ ks
  · rw [if_pos hmem] at h
    rw [dictGet_eq_none_iff] at h
    simp [hmem, h]
  · rw [if_neg hmem] at h
    have hiff : a ∈ keys (delAll ks d) ↔ a ∈ keys d := by
      constructor
      · intro hk
        by_contra hc
        rw [← dictGet_eq_none_iff, ← h, dictGet_eq_none_iff] at hc
        exact hc hk
      · intro hk
        by_contra hc
        rw [← dictGet_eq_none_iff, h, dictGet_eq_none_iff] at hc
        exact hc hk
    simp [hmem, hiff]


/-! ### The retained tail of a list, and the trim `add_message` performs -/

/-- The last `min n (length l)` elements of `l`, in order (spec side:
"the most recent n entries"). -/
def lastN {α : Type} (n : Nat) (l : List α) : List α :=
  l.drop (l.length - n)

/-- The trim step of `add_message`: Python
`if len(l) > max: l = l[-max:]`. -/
def pyTrim {α : Type} (m : Nat) (l : List α) : List α :=
  if l.length > m then pySliceLast m l else l

theorem length_lastN {α : Type} (n : Nat) (l : List α) :
    (lastN n l).length = min n l.length := by
  rw [lastN, List.length_drop]
  omega

theorem lastN_of_le {α : Type} (n : Nat) (l : List α) (h : l.length ≤ n) :
    lastN n l = l := by
  rw [lastN, Nat.sub_eq_zero_of_le h, List.drop_zero]

theorem pySliceLast_eq_lastN {α : Type} (n : Nat) (l : List α) (h : 1 ≤ n) :
    pySliceLast n l = lastN n l := by
  rw [pySliceLast, if_neg (by omega), lastN]

theorem pyTrim_eq_lastN {α : Type} (m : Nat) (l : List α) (h : 1 ≤ m) :
    pyTrim m l = lastN m l := by
  rw [pyTrim]
  by_cases hl : l.length > m
  · rw [if_pos hl, pySliceLast_eq_lastN m l h]
  · rw [if_neg hl, lastN_of_le m l (by omega)]

theorem pyTrim_ne_nil {α : Type} (m : Nat) (l : List α) (h : l ≠ []) :
    pyTrim m l ≠ [] := by
  have hlen : 1 ≤ l.length := List.length_pos.2 h
  rw [pyTrim]
  by_cases hl : l.length > m
  · rw [if_pos hl]
    by_cases hm : m = 0
    · subst hm
      rw [pySliceLast, if_pos rfl]
      exact h
    · rw [pySliceLast_eq_lastN m l (by omega)]
      have := length_lastN m l
      intro hnil
      rw [hnil] at this
      simp at this
      omega
  · rw [if_neg hl]
    exact h

theorem lastN_append_singleton {α : Type} (m : Nat) (xs : List α) (x : α) :
    lastN m (lastN m xs ++ [x]) = lastN m (xs ++ [x]) := by
  unfold lastN
  rw [List.drop_append_eq_append_drop, List.drop_append_eq_append_drop, List.drop_drop]
  have hlen : (xs.drop (xs.length - m)).length = xs.length - (xs.length - m) :=
    List.length_drop _ _
  congr 1
  · congr 1
    rw [List.length_append, hlen, List.length_append]
    omega
  · congr 1
    rw [List.length_append, hlen, List.length_append]
    omega

/-! ### Characterisations of the operations -/

/-- Method `add_message` written with `pyTrim`: both dicts are updated at the
session key; the stored list is the old list with the new message
appended, trimmed. -/
theorem add_message_def (s : SessionMemory) (user_id content sender : String) (now : Nat) :
    add_message s user_id content sender now =
      { s with
          sessions := dictSet (get_session_id user_id)
            (pyTrim s.max_messages
              (((dictGet (get_session_id user_id) s.sessions).getD []) ++
                [⟨content, sender, now⟩]))
            s.sessions
          session_last_activity :=
            dictSet (get_session_id user_id) now s.session_last_activity } := rfl

theorem get_conversation_history_none (s : SessionMemory) (user_id : String) :
    get_conversation_history s user_id none =
      (dictGet (get_session_id user_id) s.sessions).getD [] := by
  unfold get_conversation_history
  cases dictGet (get_session_id user_id) s.sessions <;> rfl

theorem get_conversation_history_zero (s : SessionMemory) (user_id : String) :
    get_conversation_history s user_id (some 0) =
      get_conversation_history s user_id none := by
  unfold get_conversation_history
  cases dictGet (get_session_id user_id) s.sessions <;> simp

theorem get_conversation_history_pos (s : SessionMemory) (user_id : String)
    (n : Nat) (h : 1 ≤ n) :
    get_conversation_history s user_id (some n) =
      lastN n ((dictGet (get_session_id user_id) s.sessions).getD []) := by
  unfold get_conversation_history
  cases dictGet (get_session_id user_id) s.sessions with
  | none => simp [lastN]
  | some messages => simp only [Option.getD_some, lastN, if_neg (by omega : ¬ n = 0)]

/-! ### The store invariant and reachability -/

/-- Bookkeeping invariant of every reachable store state: both dicts have
unique keys, they hold exactly the same keys, and no session is empty. -/
def Inv (s : SessionMemory) : Prop :=
  (keys s.sessions).Nodup ∧ (keys s.session_last_activity).Nodup ∧
    (∀ k, k ∈ keys s.sessions ↔ k ∈ keys s.session_last_activity) ∧
    (∀ k msgs, dictGet k s.sessions = some msgs → msgs ≠ [])

theorem inv_initMemory (m t : Nat) : Inv (initMemory m t) := by
  refine ⟨?_, ?_, ?_, ?_⟩ <;> simp [initMemory, keys, dictGet]

theorem inv_add (s : SessionMemory) (user_id content sender : String) (now : Nat)
    (h : Inv s) : Inv (add_message s user_id content sender now) := by
  obtain ⟨h1, h2, h3, h4⟩ := h
  rw [add_message_def]
  refine ⟨nodup_keys_dictSet _ _ _ h1, nodup_keys_dictSet _ _ _ h2, ?_, ?_⟩
  · intro k
    rw [mem_keys_dictSet, mem_keys_dictSet, h3 k]
  · intro k msgs hget
    rw [dictGet_dictSet] at hget
    by_cases hk : get_session_id user_id = k
    · rw [if_pos hk] at hget
      have := pyTrim_ne_nil s.max_messages
        (((dictGet (get_session_id user_id) s.sessions).getD []) ++
          [⟨content, sender, now⟩]) (by simp)
      rw [Option.some_inj] at hget
      rw [← hget]
      exact this
    · rw [if_neg hk] at hget
      exact h4 k msgs hget

theorem inv_clear (s : SessionMemory) (user_id : String) (h : Inv s) :
    Inv (clear_session s user_id).2 := by
  obtain ⟨h1, h2, h3, h4⟩ := h
  rw [clear_session]
  by_cases hex : (dictGet (get_session_id user_id) s.sessions).isSome
  · rw [if_pos hex]
    refine ⟨nodup_keys_dictDel _ _ h1, nodup_keys_dictDel _ _ h2, ?_, ?_⟩
    · intro k
      rw [mem_keys_dictDel k _ _ h1, mem_keys_dictDel k _ _ h2, h3 k]
    · intro k msgs hget
      by_cases hk : get_session_id user_id = k
      · subst hk
        rw [dictGet_dictDel_self _ _ h1] at hget
        exact absurd hget (by simp)
      · rw [dictGet_dictDel_ne _ _ _ hk] at hget
        exact h4 k msgs hget
  · rw [if_neg hex]
    exact ⟨h1, h2, h3, h4⟩

theorem inv_sweep (s : SessionMemory) (now : Nat) (h : Inv s) :
    Inv (cleanup_pass s now) := by
  obtain ⟨h1, h2, h3, h4⟩ := h
  rw [cleanup_pass]
  refine ⟨nodup_keys_delAll _ _ h1, nodup_keys_delAll _ _ h2, ?_, ?_⟩
  · intro k
    rw [mem_keys_delAll k _ _ h1, mem_keys_delAll k _ _ h2, h3 k]
  · intro k msgs hget
    rw [dictGet_delAll k _ _ h1] at hget
    by_cases hk : k ∈ keys (List.filter
        (fun p => decide (s.session_timeout < now - p.2)) s.session_last_activity)
    · rw [if_pos hk] at hget
      exact absurd hget (by simp)
    · rw [if_neg hk] at hget
      exact h4 k msgs hget

theorem step_inv {s s' : SessionMemory} (h : Inv s) (hs : Step s s') : Inv s' := by
  cases hs with
  | add user_id content sender now => exact inv_add s user_id content sender now h
  | clear user_id => exact inv_clear s user_id h
  | sweep now => exact inv_sweep s now h

theorem reachable_inv {s : SessionMemory} (h : Reachable s) : Inv s := by
  induction h with
  | start m t => exact inv_initMemory m t
  | step _ hs ih => exact step_inv ih hs


/-! ### Further helper lemmas -/

theorem lastN_append_lastN {α : Type} (m : Nat) (xs b : List α) :
    lastN m (lastN m xs ++ b) = lastN m (xs ++ b) := by
  unfold lastN
  rw [List.drop_append_eq_append_drop, List.drop_append_eq_append_drop, List.drop_drop]
  have hlen : (xs.drop (xs.length - m)).length = xs.length - (xs.length - m) :=
    List.length_drop _ _
  have h1 : (xs ++ b).length = xs.length + b.length := List.length_append xs b
  have h2 : (xs.drop (xs.length - m) ++ b).length =
      xs.length - (xs.length - m) + b.length := by
    rw [List.length_append, hlen]
  congr 1
  · congr 1
    omega
  · congr 1
    omega

theorem pyTrim_append_singleton {α : Type} (m : Nat) (l : List α) (x : α) :
    ∃ front, pyTrim m (l ++ [x]) = front ++ [x] := by
  by_cases h : (l ++ [x]).length > m
  · rw [pyTrim, if_pos h]
    by_cases hm : m = 0
    · subst hm
      exact ⟨l, by rw [pySliceLast, if_pos rfl]⟩
    · rw [pySliceLast_eq_lastN _ _ (by omega), lastN, List.drop_append_eq_append_drop]
      refine ⟨l.drop ((l ++ [x]).length - m), ?_⟩
      have hz : (l ++ [x]).length - m - l.length = 0 := by
        rw [List.length_append]
        simp only [List.length_cons, List.length_nil]
        omega
      rw [hz, List.drop_zero]
  · exact ⟨l, by rw [pyTrim, if_neg h]⟩

theorem dictGet_mem {α : Type} {k : String} {v : α} {d : List (String × α)}
    (h : dictGet k d = some v) : (k, v) ∈ d := by
  induction d with
  | nil => exact absurd h (by simp [dictGet])
  | cons p rest ih =>
      obtain ⟨a, b⟩ := p
      by_cases ha : a = k
      · subst ha
        rw [dictGet, if_pos rfl, Option.some_inj] at h
        subst h
        exact List.mem_cons_self _ _
      · rw [dictGet, if_neg ha] at h
        exact List.mem_cons_of_mem _ (ih h)

theorem mem_dictGet_of_nodup {α : Type} {k : String} {v : α} {d : List (String × α)}
    (hnd : (keys d).Nodup) (h : (k, v) ∈ d) : dictGet k d = some v := by
  induction d with
  | nil => exact absurd h (by simp)
  | cons p rest ih =>
      obtain ⟨a, b⟩ := p
      rw [keys_cons, List.nodup_cons] at hnd
      rcases List.mem_cons.1 h with heq | hmem
      · rw [Prod.mk.injEq] at heq
        obtain ⟨h1, h2⟩ := heq
        rw [dictGet, if_pos h1.symm, h2]
      · have hk : ¬ a = k := by
          rintro rfl
          exact hnd.1 (List.mem_map.2 ⟨(a, v), hmem, rfl⟩)
        rw [dictGet, if_neg hk]
        exact ih hnd.2 hmem

theorem mem_keys_iff_exists {α : Type} (k : String) (d : List (String × α)) :
    k ∈ keys d ↔ ∃ v, (k, v) ∈ d := by
  constructor
  · intro h
    rcases List.mem_map.1 h with ⟨p, hp, hfst⟩
    exact ⟨p.2, by rw [← hfst]; exact hp⟩
  · rintro ⟨v, hv⟩
    exact List.mem_map.2 ⟨(k, v), hv, rfl⟩

theorem mem_expired_iff (s : SessionMemory) (now : Nat) (sid : String) (la : Nat)
    (hnd : (keys s.session_last_activity).Nodup)
    (hla : dictGet sid s.session_last_activity = some la) :
    sid ∈ keys (s.session_last_activity.filter
        (fun p => decide (s.session_timeout < now - p.2))) ↔
      s.session_timeout < now - la := by
  constructor
  · intro h
    rcases (mem_keys_iff_exists sid _).1 h with ⟨v, hv⟩
    rw [List.mem_filter] at hv
    have hvla : v = la := by
      have := mem_dictGet_of_nodup hnd hv.1
      rw [this, Option.some_inj] at hla
      exact hla
    subst hvla
    exact of_decide_eq_true hv.2
  · intro h
    refine (mem_keys_iff_exists sid _).2 ⟨la, List.mem_filter.2 ⟨dictGet_mem hla, ?_⟩⟩
    exact decide_eq_true h

theorem sum_lengths_over_keys (d : List (String × List ConversationMessage))
    (hnd : (keys d).Nodup) :
    ((keys d).map (fun k => ((dictGet k d).getD []).length)).sum =
      (d.map (fun p => p.2.length)).sum := by
  induction d with
  | nil => rfl
  | cons p rest ih =>
      obtain ⟨a, b⟩ := p
      rw [keys_cons, List.nodup_cons] at hnd
      rw [keys_cons, List.map_cons, List.map_cons, List.sum_cons, List.sum_cons]
      have hhead : ((dictGet a ((a, b) :: rest)).getD []).length = b.length := by
        rw [dictGet, if_pos rfl, Option.getD_some]
      rw [hhead]
      congr 1
      have hmap : (keys rest).map (fun k => ((dictGet k ((a, b) :: rest)).getD []).length) =
          (keys rest).map (fun k => ((dictGet k rest).getD []).length) := by
        refine List.map_congr_left ?_
        intro k hk
        have hak : ¬ a = k := by
          rintro rfl
          exact hnd.1 hk
        rw [dictGet, if_neg hak]
      rw [hmap, ih hnd.2]

theorem add_messages_cursor (M : Nat) (hM : 1 ≤ M) (user_id : String)
    (inputs : List (String × String × Nat)) :
    ∀ s : SessionMemory, s.max_messages = M →
      ((dictGet (get_session_id user_id) s.sessions).getD []).length ≤ M →
      (dictGet (get_session_id user_id) (add_messages s user_id inputs).sessions).getD [] =
        lastN M (((dictGet (get_session_id user_id) s.sessions).getD []) ++ msgsOf inputs) := by
  induction inputs with
  | nil =>
      intro s hmax hlen
      rw [add_messages, List.foldl_nil, msgsOf, List.map_nil, List.append_nil,
        lastN_of_le _ _ hlen]
  | cons p rest ih =>
      intro s hmax hlen
      have hstep : add_messages s user_id (p :: rest) =
          add_messages (add_message s user_id p.1 p.2.1 p.2.2) user_id rest := rfl
      have hmax2 : (add_message s user_id p.1 p.2.1 p.2.2).max_messages = M := hmax
      have hcur2 : (dictGet (get_session_id user_id)
          (add_message s user_id p.1 p.2.1 p.2.2).sessions).getD [] =
          lastN M (((dictGet (get_session_id user_id) s.sessions).getD []) ++
            [⟨p.1, p.2.1, p.2.2⟩]) := by
        rw [add_message_def]
        dsimp only
        rw [dictGet_dictSet, if_pos rfl, Option.getD_some, hmax, pyTrim_eq_lastN _ _ hM]
      have hlen2 : ((dictGet (get_session_id user_id)
          (add_message s user_id p.1 p.2.1 p.2.2).sessions).getD []).length ≤ M := by
        rw [hcur2, length_lastN]
        omega
      rw [hstep, ih _ hmax2 hlen2, hcur2, lastN_append_lastN, List.append_assoc,
        List.singleton_append]
      rfl


/-! ### Concrete stores used by witnesses and counterexamples -/

/-- The spec example scenario: capacity 3, four appends for user u1. -/
def specExampleInputs : List (String × String × Nat) :=
  [("hi", "user", 0), ("hello!", "bot", 1), ("bye", "user", 2), ("goodbye", "bot", 3)]

/-- A store with a single one-message session for user u. -/
def oneMsgStore : SessionMemory :=
  add_message (initMemory 50 60) "u" "hi" "user" 0

/-- A store with a two-message session for user u. -/
def twoMsgStore : SessionMemory :=
  add_messages (initMemory 50 60) "u" [("a", "user", 0), ("b", "bot", 1)]

/-- A store with two sessions holding three messages in total. -/
def statsStore : SessionMemory :=
  add_message (add_message (add_message (initMemory 50 60) "a" "m1" "user" 0)
    "a" "m2" "bot" 1) "b" "m3" "user" 2

theorem statsStore_reachable : Reachable statsStore :=
  Reachable.step (Reachable.step (Reachable.step (Reachable.start 50 60)
    (Step.add _ "a" "m1" "user" 0)) (Step.add _ "a" "m2" "bot" 1))
    (Step.add _ "b" "m3" "user" 2)

/-! ### The claims -/

/-- C1 (corrected: the original claim fails at capacity M = 0, where the
Python slice l[-0:] is the whole list and nothing is ever evicted; for
every capacity M ≥ 1 it holds): after any sequence of N appends for a
single user into a fresh store with capacity M, the session holds exactly
the last min(N, M) appended messages in their original relative order, so
older messages are evicted FIFO from the front and the length, always
min(N, M), never exceeds M. -/
theorem C1_bounded_growth_amended (M T : Nat) (user_id : String)
    (inputs : List (String × String × Nat)) (hM : 1 ≤ M) :
    get_conversation_history (add_messages (initMemory M T) user_id inputs) user_id none =
      lastN M (msgsOf inputs) ∧
    (get_conversation_history (add_messages (initMemory M T) user_id inputs)
        user_id none).length = min inputs.length M := by
  have hbase : ((dictGet (get_session_id user_id) (initMemory M T).sessions).getD
      []).length ≤ M := by
    simp [initMemory, dictGet]
  have h := add_messages_cursor M hM user_id inputs (initMemory M T) rfl hbase
  rw [get_conversation_history_none, h]
  have hnil : (dictGet (get_session_id user_id) (initMemory M T).sessions).getD [] =
      ([] : List ConversationMessage) := rfl
  rw [hnil, List.nil_append]
  refine ⟨rfl, ?_⟩
  rw [length_lastN, msgsOf, List.length_map, Nat.min_comm]

/-- C1 witness: the spec example (M = 3, four appends) instantiates the
amended claim. -/
theorem C1_witness :
    1 ≤ 3 ∧
    (get_conversation_history (add_messages (initMemory 3 60) "u1" specExampleInputs)
        "u1" none = lastN 3 (msgsOf specExampleInputs) ∧
      (get_conversation_history (add_messages (initMemory 3 60) "u1" specExampleInputs)
        "u1" none).length = min specExampleInputs.length 3) :=
  ⟨by decide, C1_bounded_growth_amended 3 60 "u1" specExampleInputs (by decide)⟩

/-- C1 counterexample: with capacity M = 0 a single append leaves one
message in the session although min(N, M) = min(1, 0) = 0, because
l[-0:] keeps everything. -/
theorem C1_counterexample :
    (get_conversation_history (add_message (initMemory 0 60) "u" "hi" "user" 0)
      "u" none).length = 1 ∧
    min 1 (initMemory 0 60).max_messages = 0 := by decide

/-- C2 (corrected: for k = 0 the code returns the full history, because
the truthiness test treats 0 like an absent argument; for every k ≥ 1 the
claim holds): getConversationHistory with k unspecified returns the full
retained history in insertion order; with k ≥ 1 it returns exactly the
last min(k, len) messages in original order; with k = 0 it returns the
full history rather than the last 0 messages. -/
theorem C2_last_n_slicing_amended (s : SessionMemory) (user_id : String) :
    get_conversation_history s user_id none =
      (dictGet (get_session_id user_id) s.sessions).getD [] ∧
    get_conversation_history s user_id (some 0) =
      get_conversation_history s user_id none ∧
    ∀ k, 1 ≤ k →
      get_conversation_history s user_id (some k) =
        lastN k (get_conversation_history s user_id none) ∧
      (get_conversation_history s user_id (some k)).length =
        min k (get_conversation_history s user_id none).length := by
  refine ⟨get_conversation_history_none s user_id,
    get_conversation_history_zero s user_id, ?_⟩
  intro k hk
  rw [get_conversation_history_pos s user_id k hk, get_conversation_history_none]
  exact ⟨rfl, by rw [length_lastN]⟩

/-- C2 witness: k = 1 on the spec example store returns the last message. -/
theorem C2_witness :
    1 ≤ 1 ∧
    (get_conversation_history (add_messages (initMemory 3 60) "u1" specExampleInputs)
        "u1" (some 1) =
      lastN 1 (get_conversation_history
        (add_messages (initMemory 3 60) "u1" specExampleInputs) "u1" none) ∧
    (get_conversation_history (add_messages (initMemory 3 60) "u1" specExampleInputs)
        "u1" (some 1)).length =
      min 1 (get_conversation_history
        (add_messages (initMemory 3 60) "u1" specExampleInputs) "u1" none).length) :=
  ⟨by decide,
    (C2_last_n_slicing_amended (add_messages (initMemory 3 60) "u1" specExampleInputs)
      "u1").2.2 1 (by decide)⟩

/-- C2 counterexample: k = 0 on a one-message session returns that
message, not the last min(0, 1) = 0 messages. -/
theorem C2_counterexample :
    (get_conversation_history oneMsgStore "u" (some 0)).length = 1 ∧
    min 0 (get_conversation_history oneMsgStore "u" none).length = 0 := by decide

/-- C3 (corrected: the sweep compares with a strict >, so a session whose
age exactly equals sessionTimeout survives; the original claim said "at
or over"): one cleanup pass at time now removes both the message list and
the activity record of every session whose age now - lastActivity
strictly exceeds sessionTimeout, and leaves both entries of every session
at or under the timeout unchanged. -/
theorem C3_sweep_amended (s : SessionMemory) (now : Nat)
    (h1 : (keys s.sessions).Nodup) (h2 : (keys s.session_last_activity).Nodup)
    (sid : String) (la : Nat)
    (hla : dictGet sid s.session_last_activity = some la) :
    (s.session_timeout < now - la →
      dictGet sid (cleanup_pass s now).sessions = none ∧
      dictGet sid (cleanup_pass s now).session_last_activity = none) ∧
    (now - la ≤ s.session_timeout →
      dictGet sid (cleanup_pass s now).sessions = dictGet sid s.sessions ∧
      dictGet sid (cleanup_pass s now).session_last_activity = some la) := by
  have hmem := mem_expired_iff s now sid la h2 hla
  constructor
  · intro hexp
    have hin := hmem.2 hexp
    simp only [cleanup_pass]
    rw [dictGet_delAll sid _ _ h1, if_pos hin, dictGet_delAll sid _ _ h2, if_pos hin]
    exact ⟨rfl, rfl⟩
  · intro hyoung
    have hout : sid ∉ keys (s.session_last_activity.filter
        (fun p => decide (s.session_timeout < now - p.2))) := by
      intro hin
      have := hmem.1 hin
      omega
    simp only [cleanup_pass]
    rw [dictGet_delAll sid _ _ h1, if_neg hout, dictGet_delAll sid _ _ h2, if_neg hout]
    exact ⟨rfl, hla⟩

/-- C3 witness: a session last active at 0 with timeout 60 is removed
from both dicts by a pass at time 61. -/
theorem C3_witness :
    oneMsgStore.session_timeout < 61 - 0 ∧
    (dictGet (get_session_id "u") (cleanup_pass oneMsgStore 61).sessions = none ∧
      dictGet (get_session_id "u")
        (cleanup_pass oneMsgStore 61).session_last_activity = none) :=
  ⟨by decide,
    (C3_sweep_amended oneMsgStore 61 (by decide) (by decide) (get_session_id "u") 0
      (by decide)).1 (by decide)⟩

/-- C3 counterexample: a session whose age exactly equals the timeout
(60 - 0 = timeout 60) is at the threshold, yet the pass keeps it. -/
theorem C3_counterexample :
    60 - 0 = oneMsgStore.session_timeout ∧
    dictGet (get_session_id "u") (cleanup_pass oneMsgStore 60).sessions =
      some [ConversationMessage.mk "hi" "user" 0] := by decide

/-- C4 (corrected: the code performs no input validation at all: a call
with an empty userId and a sender outside the enum is accepted silently,
creating or mutating the session keyed on the empty id and storing the
sender string verbatim, instead of being rejected): after such a call the
session for the empty userId is non-empty and ends with exactly the
unvalidated message. -/
theorem C4_no_validation_amended (s : SessionMemory) (content sender : String)
    (now : Nat) :
    get_conversation_history (add_message s "" content sender now) "" none ≠ [] ∧
    ∃ front, get_conversation_history (add_message s "" content sender now) "" none =
      front ++ [ConversationMessage.mk content sender now] := by
  rw [get_conversation_history_none, add_message_def]
  dsimp only
  rw [dictGet_dictSet, if_pos rfl, Option.getD_some]
  exact ⟨pyTrim_ne_nil _ _ (by simp), pyTrim_append_singleton _ _ _⟩

/-- C4 counterexample: on a fresh store, add_message with an empty userId
and the out-of-enum sender "alien" is not rejected: it creates the
session and stores the message unchanged. -/
theorem C4_counterexample :
    get_conversation_history (add_message (initMemory 50 60) "" "hi" "alien" 0)
      "" none = [ConversationMessage.mk "hi" "alien" 0] := by decide

/-- C5 (confirmed): every public read is a total function of the state;
for a userId with no session, getConversationHistory returns the empty
sequence for every argument, getLastUserMessage and getLastBotMessage
return none, and getConversationContext returns the sentinel — no lookup
can fail. -/
theorem C5_reads_total (s : SessionMemory) (user_id : String)
    (h : dictGet (get_session_id user_id) s.sessions = none) :
    (∀ n, get_conversation_history s user_id n = []) ∧
    get_last_user_message s user_id = none ∧
    get_last_bot_message s user_id = none ∧
    (∀ cl, get_conversation_context s user_id cl =
      "This is the start of the conversation.") := by
  have hh : ∀ n, get_conversation_history s user_id n = [] := by
    intro n
    unfold get_conversation_history
    rw [h]
  refine ⟨hh, ?_, ?_, ?_⟩
  · unfold get_last_user_message
    rw [h]
  · unfold get_last_bot_message
    rw [h]
  · intro cl
    simp only [get_conversation_context]
    rw [hh (some cl)]
    rfl

/-- C5 witness: reads for an unknown userId on a fresh store. -/
theorem C5_witness :
    get_conversation_history (initMemory 50 60) "ghost" none = [] ∧
    get_last_user_message (initMemory 50 60) "ghost" = none ∧
    get_last_bot_message (initMemory 50 60) "ghost" = none ∧
    get_conversation_context (initMemory 50 60) "ghost" 6 =
      "This is the start of the conversation." :=
  ⟨(C5_reads_total (initMemory 50 60) "ghost" (by decide)).1 none,
    (C5_reads_total (initMemory 50 60) "ghost" (by decide)).2.1,
    (C5_reads_total (initMemory 50 60) "ghost" (by decide)).2.2.1,
    (C5_reads_total (initMemory 50 60) "ghost" (by decide)).2.2.2 6⟩


/-- C6 (confirmed): in every store state whose dicts have unique keys (as
Python dicts guarantee), clear_session returns true and removes both the
message list and the activity record when the session exists — afterwards
the history for that user is empty and a second consecutive clear returns
false — and it returns false leaving the state unchanged when no session
exists. -/
theorem C6_clear_session_spec (s : SessionMemory) (user_id : String)
    (h1 : (keys s.sessions).Nodup) (h2 : (keys s.session_last_activity).Nodup) :
    ((dictGet (get_session_id user_id) s.sessions).isSome = true →
      (clear_session s user_id).1 = true ∧
      dictGet (get_session_id user_id) (clear_session s user_id).2.sessions = none ∧
      dictGet (get_session_id user_id)
        (clear_session s user_id).2.session_last_activity = none ∧
      get_conversation_history (clear_session s user_id).2 user_id none = [] ∧
      (clear_session (clear_session s user_id).2 user_id).1 = false) ∧
    ((dictGet (get_session_id user_id) s.sessions).isSome = false →
      (clear_session s user_id).1 = false ∧ (clear_session s user_id).2 = s) := by
  constructor
  · intro hex
    have hcs : clear_session s user_id =
        (true,
          { s with
              sessions := dictDel (get_session_id user_id) s.sessions
              session_last_activity :=
                dictDel (get_session_id user_id) s.session_last_activity }) := by
      simp only [clear_session]
      rw [if_pos hex]
    rw [hcs]
    dsimp only
    have hgone : dictGet (get_session_id user_id)
        (dictDel (get_session_id user_id) s.sessions) = none :=
      dictGet_dictDel_self _ _ h1
    refine ⟨rfl, hgone, dictGet_dictDel_self _ _ h2, ?_, ?_⟩
    · rw [get_conversation_history_none]
      dsimp only
      rw [hgone]
      rfl
    · simp only [clear_session]
      rw [hgone]
      rfl
  · intro hnex
    simp [clear_session, hnex]

/-- C6 witness: clearing the one existing session of a concrete store,
then clearing again. -/
theorem C6_witness :
    (dictGet (get_session_id "u") oneMsgStore.sessions).isSome = true ∧
    ((clear_session oneMsgStore "u").1 = true ∧
      dictGet (get_session_id "u") (clear_session oneMsgStore "u").2.sessions = none ∧
      dictGet (get_session_id "u")
        (clear_session oneMsgStore "u").2.session_last_activity = none ∧
      get_conversation_history (clear_session oneMsgStore "u").2 "u" none = [] ∧
      (clear_session (clear_session oneMsgStore "u").2 "u").1 = false) :=
  ⟨by decide,
    (C6_clear_session_spec oneMsgStore "u" (by decide) (by decide)).1 (by decide)⟩

/-- C7 (corrected: for contextLength = 0 the code renders the entire
history, because the history call treats 0 as "no limit"; for
contextLength ≥ 1 the claim holds): getConversationContext returns the
fixed sentinel exactly when the session has no messages, and otherwise
one formatted line per message of the last contextLength messages, in
chronological order, with sender "user" rendered "Customer" and "bot"
rendered "Assistant"; being a function of the state, the output is
deterministic. -/
theorem C7_context_format_amended (s : SessionMemory) (user_id : String) (n : Nat)
    (hn : 1 ≤ n) :
    (∀ m : ConversationMessage, m.sender = "user" →
      format_line m = "Customer: " ++ m.content) ∧
    (∀ m : ConversationMessage, m.sender = "bot" →
      format_line m = "Assistant: " ++ m.content) ∧
    ((dictGet (get_session_id user_id) s.sessions).getD [] = [] →
      get_conversation_context s user_id n = "This is the start of the conversation.") ∧
    ((dictGet (get_session_id user_id) s.sessions).getD [] ≠ [] →
      get_conversation_context s user_id n =
        String.intercalate "\n"
          ((lastN n ((dictGet (get_session_id user_id) s.sessions).getD [])).map
            format_line) ∧
      ((lastN n ((dictGet (get_session_id user_id) s.sessions).getD [])).map
          format_line).length =
        min n ((dictGet (get_session_id user_id) s.sessions).getD []).length) := by
  refine ⟨?_, ?_, ?_, ?_⟩
  · intro m hm
    rw [format_line, hm]
    rfl
  · intro m hm
    rw [format_line, hm]
    rfl
  · intro hnil
    simp only [get_conversation_context]
    rw [get_conversation_history_pos s user_id n hn, hnil]
    have hempty : lastN n ([] : List ConversationMessage) = [] := by
      simp [lastN]
    rw [hempty]
    rfl
  · intro hne
    have hlenpos : 1 ≤ ((dictGet (get_session_id user_id) s.sessions).getD []).length :=
      List.length_pos.2 hne
    have hlast := length_lastN n ((dictGet (get_session_id user_id) s.sessions).getD [])
    have hne2 : ¬ (lastN n ((dictGet (get_session_id user_id) s.sessions).getD
        [])).isEmpty = true := by
      intro hq
      rw [List.isEmpty_iff] at hq
      rw [hq] at hlast
      simp at hlast
      omega
    simp only [get_conversation_context]
    rw [get_conversation_history_pos s user_id n hn, if_neg hne2]
    exact ⟨rfl, by rw [List.length_map, hlast]⟩

/-- C7 witness: the default contextLength 6 on a two-message session. -/
theorem C7_witness :
    (dictGet (get_session_id "u") twoMsgStore.sessions).getD [] ≠ [] ∧
    (get_conversation_context twoMsgStore "u" 6 =
      String.intercalate "\n"
        ((lastN 6 ((dictGet (get_session_id "u") twoMsgStore.sessions).getD [])).map
          format_line) ∧
    ((lastN 6 ((dictGet (get_session_id "u") twoMsgStore.sessions).getD [])).map
        format_line).length =
      min 6 ((dictGet (get_session_id "u") twoMsgStore.sessions).getD []).length) :=
  ⟨by decide,
    (C7_context_format_amended twoMsgStore "u" 6 (by decide)).2.2.2 (by decide)⟩

/-- C7 counterexample: contextLength = 0 on a two-message session renders
both messages — two lines, not one line per message of the last 0
messages (which would be the empty rendering). -/
theorem C7_counterexample :
    get_conversation_context twoMsgStore "u" 0 = "Customer: a\nAssistant: b" ∧
    lastN 0 (get_conversation_history twoMsgStore "u" none) = [] := by decide

/-- C8 (confirmed): in every reachable store state, the stats snapshot is
consistent: totalSessions is the number of live session keys,
totalMessages the sum of the message-list lengths over all live sessions,
and avgMessagesPerSession their exact quotient, 0 when there are no
sessions. -/
theorem C8_session_stats (s : SessionMemory) (h : Reachable s) :
    (get_session_stats s).total_sessions = (keys s.sessions).length ∧
    (get_session_stats s).total_messages =
      ((keys s.sessions).map (fun k => ((dictGet k s.sessions).getD []).length)).sum ∧
    (get_session_stats s).avg_messages_per_session =
      (if 0 < (keys s.sessions).length then
        (((keys s.sessions).map
            (fun k => ((dictGet k s.sessions).getD []).length)).sum : ℚ) /
          ((keys s.sessions).length : ℚ)
      else 0) := by
  have hnd := (reachable_inv h).1
  have hsum := sum_lengths_over_keys s.sessions hnd
  have hlenkeys : (keys s.sessions).length = s.sessions.length :=
    List.length_map _ _
  refine ⟨?_, ?_, ?_⟩
  · simp only [get_session_stats]
    rw [hlenkeys]
  · simp only [get_session_stats]
    rw [hsum]
  · simp only [get_session_stats]
    rw [hsum, hlenkeys]

/-- C8 witness: the stats equations at a concrete reachable two-session,
three-message store. -/
theorem C8_witness :
    (get_session_stats statsStore).total_sessions = (keys statsStore.sessions).length ∧
    (get_session_stats statsStore).total_messages =
      ((keys statsStore.sessions).map
        (fun k => ((dictGet k statsStore.sessions).getD []).length)).sum ∧
    (get_session_stats statsStore).avg_messages_per_session =
      (if 0 < (keys statsStore.sessions).length then
        (((keys statsStore.sessions).map
            (fun k => ((dictGet k statsStore.sessions).getD []).length)).sum : ℚ) /
          ((keys statsStore.sessions).length : ℚ)
      else 0) :=
  C8_session_stats statsStore statsStore_reachable

/-- C9 (confirmed): in every reachable store state, the sessions dict and
the last-activity dict hold exactly the same keys: every session has an
activity record and no record outlives its session. -/
theorem C9_keys_agree (s : SessionMemory) (h : Reachable s) (k : String) :
    k ∈ keys s.sessions ↔ k ∈ keys s.session_last_activity :=
  (reachable_inv h).2.2.1 k

/-- C9 witness: key agreement at a concrete reachable store. -/
theorem C9_witness :
    (get_session_id "a" ∈ keys statsStore.sessions ↔
      get_session_id "a" ∈ keys statsStore.session_last_activity) :=
  C9_keys_agree statsStore statsStore_reachable (get_session_id "a")

/-- C10 (confirmed): in every reachable store state, every session
present in the store holds at least one message, so
getConversationHistory is non-empty for every userId whose session
exists. -/
theorem C10_sessions_nonempty (s : SessionMemory) (h : Reachable s) :
    (∀ k msgs, dictGet k s.sessions = some msgs → msgs ≠ []) ∧
    (∀ user_id, dictGet (get_session_id user_id) s.sessions ≠ none →
      get_conversation_history s user_id none ≠ []) := by
  have hi := (reachable_inv h).2.2.2
  refine ⟨hi, ?_⟩
  intro uid hne
  rw [get_conversation_history_none]
  cases hq : dictGet (get_session_id uid) s.sessions with
  | none => exact absurd hq hne
  | some msgs =>
      rw [Option.getD_some]
      exact hi _ msgs hq

/-- C10 witness: non-emptiness of a concrete reachable session. -/
theorem C10_witness :
    dictGet (get_session_id "a") statsStore.sessions ≠ none ∧
    get_conversation_history statsStore "a" none ≠ [] :=
  ⟨by decide,
    (C10_sessions_nonempty statsStore statsStore_reachable).2 "a" (by decide)⟩

end SessionMem
